import Mathlib

/-!
Shallow embedding of the `skm` project state-inference engine, verified against
its natural-language specification.

Conventions of the embedding:
* Rust strings are modelled as `String` (for path labels, compared only for
  equality) or as `List Char` (for scanned text, where Rust iterates chars).
* Rust `u8`/`u32`/`u64` counters are modelled as `Nat` (no wraparound is
  reachable in the modelled code paths), timestamps as `Int` seconds, and
  `f64` scores as `ℚ` (every operation used by the scorer — addition,
  multiplication and division by small constants, `min`, `max` — is monotone
  in `f64` exactly as in `ℚ`, which is what the verified properties assert).
* Filesystem state is passed explicitly: a directory is a record of the
  optional files the code looks up, and file metadata reads always succeed
  (the claims under verification do not concern I/O failure paths).
* Rust's `chrono` day/minute extraction truncates toward zero, which is
  `Int.tdiv`.
-/

namespace SKM

/-! ## Text utilities (models of Rust `str` operations on char sequences) -/

/-- Model of Rust `char::is_whitespace` as used by `str::trim`. -/
def isWS (c : Char) : Bool := c.isWhitespace

/-- Model of Rust `str::trim`: drop whitespace from both ends. -/
def trim (l : List Char) : List Char :=
  ((l.dropWhile isWS).reverse.dropWhile isWS).reverse

/-- Model of Rust `str::contains(pattern)` substring search. -/
def containsSub (needle : List Char) : List Char → Bool
  | [] => needle.isEmpty
  | c :: rest => needle.isPrefixOf (c :: rest) || containsSub needle (rest)

/-- `pfx p l` models Rust `l.starts_with(p)` for a literal pattern `p`. -/
def pfx (s : String) (l : List Char) : Bool := s.data.isPrefixOf l

/-- `hasSub p l` models Rust `l.contains(p)` for a literal pattern `p`. -/
def hasSub (s : String) (l : List Char) : Bool := containsSub s.data l

/-- Tail test for the task-identifier regex `T\d{3,4}:` after the `T`:
exactly three or four ASCII-range decimal digits followed by a colon. -/
def tTail : List Char → Bool
  | a :: b :: c :: rest =>
    a.isDigit && b.isDigit && c.isDigit &&
      (match rest with
       | ':' :: _ => true
       | d :: ':' :: _ => d.isDigit
       | _ => false)
  | _ => false

/-- Model of `regex::Regex::new(r"T\d{3,4}:").is_match`: the pattern may
match starting at any position of the line. -/
def taskPatternMatch : List Char → Bool
  | [] => false
  | 'T' :: rest => tTail rest || taskPatternMatch rest
  | _ :: rest => taskPatternMatch rest

/-- Split on `'\n'`, producing one (possibly empty) segment per separator gap. -/
def splitOnNl : List Char → List (List Char)
  | [] => [[]]
  | c :: rest =>
    if c = '\n' then [] :: splitOnNl rest
    else
      match splitOnNl rest with
      | [] => [[c]]
      | l :: ls => (c :: l) :: ls

/-- Strip one trailing `'\r'`, as Rust `str::lines` does per line. -/
def stripCR (l : List Char) : List Char :=
  match l.reverse with
  | '\r' :: r => r.reverse
  | _ => l

/-- Model of Rust `str::lines`: split on `'\n'`, drop the empty segment a
trailing newline would produce, strip one trailing `'\r'` per line. -/
def linesOf (content : List Char) : List (List Char) :=
  let parts := splitOnNl content
  let parts := if parts.getLast? = some [] then parts.dropLast else parts
  parts.map stripCR

/-! ## Task ledger parser (`src/scanner/parser.rs`, `parse_tasks_file`) -/

/-- The four counters accumulated by the line-scanning loop of
`parse_tasks_file`. -/
structure TaskCounts where
  total : Nat
  completed : Nat
  parallel_marked : Nat
  blocked : Nat
deriving DecidableEq, Repr

/-- Model of `TaskSummary` from `src/lib.rs`. -/
structure TaskSummary where
  total : Nat
  completed : Nat
  parallel_marked : Nat
  blocked : Nat
  last_activity : Option Int
deriving DecidableEq, Repr

/-- One iteration of the line-scanning loop of `parse_tasks_file`:
the `else if` chain over the trimmed line, translated branch by branch.
Containment checks run on the raw `line`, prefix checks on `trim line`,
exactly as in the source. -/
def lineStep (s : TaskCounts) (line : List Char) : TaskCounts :=
  let trimmed := trim line
  if pfx "- [ ]" trimmed || pfx "* [ ]" trimmed then
    { s with
      total := s.total + 1,
      parallel_marked := s.parallel_marked +
        (if hasSub "[P]" line || hasSub "(P)" line || hasSub "||" line then 1 else 0),
      blocked := s.blocked +
        (if hasSub "[BLOCKED]" line || hasSub "🚫" line || hasSub "⛔" line then 1 else 0) }
  else if pfx "- [x]" trimmed || pfx "- [X]" trimmed ||
          pfx "* [x]" trimmed || pfx "* [X]" trimmed then
    { s with
      total := s.total + 1,
      completed := s.completed + 1,
      parallel_marked := s.parallel_marked +
        (if hasSub "[P]" line || hasSub "(P)" line || hasSub "||" line then 1 else 0) }
  else if trimmed.contains ':' && !pfx "- [" trimmed && !pfx "* [" trimmed then
    if taskPatternMatch trimmed then
      { s with
        total := s.total + 1,
        completed := s.completed +
          (if hasSub "✅" line || hasSub "DONE" line || hasSub "[COMPLETE]" line ||
              hasSub "[x]" line || hasSub "[X]" line then 1 else 0),
        parallel_marked := s.parallel_marked +
          (if hasSub "[P]" line || hasSub "||" line then 1 else 0),
        blocked := s.blocked +
          (if hasSub "[BLOCKED]" line || hasSub "🚫" line then 1 else 0) }
    else s
  else if pfx "✅" trimmed || pfx "☑" trimmed then
    { s with total := s.total + 1, completed := s.completed + 1 }
  else if pfx "⬜" trimmed || pfx "☐" trimmed || pfx "❌" trimmed || pfx "🔄" trimmed then
    { s with total := s.total + 1 }
  else if pfx "TODO:" trimmed || pfx "- TODO:" trimmed then
    { s with total := s.total + 1 }
  else if pfx "DONE:" trimmed || pfx "- DONE:" trimmed then
    { s with total := s.total + 1, completed := s.completed + 1 }
  else s

/-- The full line-scanning loop of `parse_tasks_file` over the file content. -/
def parse_tasks_content (content : List Char) : TaskCounts :=
  (linesOf content).foldl lineStep ⟨0, 0, 0, 0⟩

/-- Model of `parse_tasks_file`: the counters come from the line loop and
`last_activity` is the file's modification timestamp. -/
def parse_tasks_file (content : List Char) (modified : Int) : TaskSummary :=
  let c := parse_tasks_content content
  ⟨c.total, c.completed, c.parallel_marked, c.blocked, some modified⟩

/-! ## Core data model (`src/lib.rs`) -/

/-- Model of `FileInfo` from `src/lib.rs`. -/
structure FileInfo where
  path : String
  size : Nat
  modified : Int
  valid : Bool
deriving DecidableEq, Repr

/-- Model of `ArtifactStatus` from `src/lib.rs`. -/
structure ArtifactStatus where
  constitution : Option FileInfo
  spec : Option FileInfo
  plan : Option FileInfo
  tasks : Option FileInfo
deriving DecidableEq, Repr

/-- Model of `Stage` from `src/lib.rs`. -/
inductive Stage
  | Bootstrap | Specify | Plan | Tasks | Implement | Test | Review | Done
deriving DecidableEq, Repr

/-- Model of `ProjectType` from `src/lib.rs`. -/
inductive ProjectType
  | Rust | Node | Python | Go | Generic | Unknown
deriving DecidableEq, Repr

/-- Model of `AutomationLevel` from `src/lib.rs`. -/
inductive AutomationLevel
  | L0 | L1 | L2 | L3
deriving DecidableEq, Repr

/-- Model of `HumanRequirement` from `src/lib.rs`. -/
inductive HumanRequirement
  | Review | Input | Fix | Test | Deploy | Decision
deriving DecidableEq, Repr

/-! ## Stage detector (`src/analyzer/stage.rs`) -/

/-- Model of `has_implementation_artifacts`: every arm of the `match` in the
source returns `false` (the checks are left as comments in the code). -/
def has_implementation_artifacts (_artifacts : ArtifactStatus) (project_type : ProjectType) : Bool :=
  match project_type with
  | .Rust => false
  | .Node => false
  | .Python => false
  | .Go => false
  | _ => false

/-- Model of `detect_stage`: the early-return chain of the source. -/
def detect_stage (artifacts : ArtifactStatus) (project_type : ProjectType) : Stage :=
  if artifacts.constitution.isNone then .Bootstrap
  else if artifacts.spec.isNone then .Specify
  else if artifacts.plan.isNone then .Plan
  else if artifacts.tasks.isNone then .Tasks
  else if !has_implementation_artifacts artifacts project_type then .Implement
  else .Test

/-! ## Risk and priority scorer (`src/analyzer/priority.rs`) -/

/-- Model of `PriorityWeights`. -/
structure PriorityWeights where
  needs_human : ℚ
  risk : ℚ
  staleness : ℚ
  impact : ℚ
  confidence : ℚ

/-- The `Default` impl of `PriorityWeights`. -/
def defaultWeights : PriorityWeights := ⟨40, 25, 15, 15, 10⟩

/-- Model of `normalize_risk`. -/
def normalize_risk (risk : Nat) : ℚ := (risk : ℚ) / 3

/-- Model of `chrono` `Duration::num_days` for a span given in whole seconds:
division by 86400 truncating toward zero. -/
def num_days (now last_updated : Int) : Int := Int.tdiv (now - last_updated) 86400

/-- Model of `calculate_staleness`: `(days / 7.0).min(1.0).max(0.0)` with the
current time passed explicitly. -/
def calculate_staleness (now last_updated : Int) : ℚ :=
  max (min ((num_days now last_updated : ℚ) / 7) 1) 0

/-- Model of `normalize_impact`. (`0.33` and `0.66` are written as the rationals
they denote; the claims proved below hold the impact input fixed, so the f64
rounding of these two constants is immaterial.) -/
def normalize_impact (impact : Nat) : ℚ :=
  if impact = 1 then 33 / 100
  else if impact = 2 then 66 / 100
  else if impact = 3 then 1
  else 1 / 2

/-- Model of `normalize_confidence`. -/
def normalize_confidence (confidence : Nat) : ℚ := (confidence : ℚ) / 2

/-- Model of `PriorityCalculator::calculate` with the clock passed explicitly. -/
def PriorityCalculator.calculate (w : PriorityWeights)
    (requires_human : List HumanRequirement) (risk_level : Nat)
    (now last_updated : Int) (impact confidence : Nat) : ℚ :=
  let needs_human : ℚ := if requires_human.isEmpty then 0 else 1
  w.needs_human * needs_human
    + w.risk * normalize_risk risk_level
    + w.staleness * calculate_staleness now last_updated
    + w.impact * normalize_impact impact
    - w.confidence * normalize_confidence confidence

/-! ## Status cache (`src/meta/state.rs`, `StatusCache`) -/

/-- Failure surfaced by `StatusCache::load` when the cache file exists but
cannot be read or deserialized. -/
inductive CacheError
  | parseError
deriving DecidableEq, Repr

/-- Model of the persisted `StatusCache` record: `last_updated` in seconds,
payload kept abstract as its serialized text. -/
structure StatusCacheData where
  last_updated : Int
  data : String
deriving DecidableEq, Repr

/-- Model of `StatusCache::load`: the file is either absent (`none`), present
but malformed (`some (.error _)`, which propagates), or present and parsed;
a parsed snapshot is returned only while `age.num_minutes() < 5`. -/
def StatusCache.load (file : Option (Except CacheError StatusCacheData)) (now : Int) :
    Except CacheError (Option StatusCacheData) :=
  match file with
  | none => .ok none
  | some (.error e) => .error e
  | some (.ok cache) =>
    if Int.tdiv (now - cache.last_updated) 60 < 5 then .ok (some cache) else .ok none

/-! ## Project metadata store (`src/meta/state.rs`, `ProjectMetaStore`) -/

/-- Model of `ProjectMeta`. Custom commands are an association list standing
in for the `HashMap`; `insert` replaces any existing binding of the key. -/
structure ProjectMeta where
  impact : Option Nat
  approved_by_human : Bool
  custom_commands : List (String × String)
  agent_command : Option String
  automation_level : Option AutomationLevel
  auto_approve : List String
deriving DecidableEq, Repr

/-- The `Default` impl of `ProjectMeta`. -/
def defaultProjectMeta : ProjectMeta := ⟨none, false, [], none, none, []⟩

/-- `HashMap::insert` on the association-list model: bind `k` to `v`,
dropping any previous binding of `k`. -/
def mapInsertStr (m : List (String × String)) (k v : String) : List (String × String) :=
  (k, v) :: m.filter (fun p => !(p.1 == k))

/-- Lookup in the association-list model of the `HashMap`. -/
def mapLookupStr (m : List (String × String)) (k : String) : Option String :=
  (m.find? (fun p => p.1 == k)).map (fun p => p.2)

/-- Errors produced by `set_value`: the two `parse` failures and the
"Unknown key" rejection. -/
inductive MetaError
  | parseIntError
  | parseBoolError
  | unknownKey (key : String)
deriving DecidableEq, Repr

/-- Digit-string to number, `none` on empty or non-digit input. -/
def parseDigits (l : List Char) : Option Nat :=
  if !l.isEmpty && l.all Char.isDigit then
    some (l.foldl (fun n c => n * 10 + (c.toNat - '0'.toNat)) 0)
  else none

/-- Model of Rust `str::parse::<u8>`: optional leading `+`, decimal digits,
value at most 255. -/
def parse_u8 (s : String) : Option Nat :=
  let l := match s.data with
    | '+' :: rest => rest
    | l => l
  match parseDigits l with
  | some n => if n ≤ 255 then some n else none
  | none => none

/-- Model of Rust `str::parse::<bool>`: exactly `true` or `false`. -/
def parse_bool (s : String) : Option Bool :=
  if s = "true" then some true else if s = "false" then some false else none

/-- Drop a known literal from the front of a string, modelling
`str::strip_prefix(p).unwrap()` at call sites where the prefix was tested. -/
def dropPfx (p : String) (s : String) : String := ⟨s.data.drop p.data.length⟩

/-- The per-project body of `ProjectMetaStore::set_value` (the `match` on the
key, after `get_project_mut`). -/
def ProjectMeta.set_value (meta : ProjectMeta) (key value : String) :
    Except MetaError ProjectMeta :=
  if key = "impact" then
    match parse_u8 value with
    | some n => .ok { meta with impact := some n }
    | none => .error .parseIntError
  else if key = "approved_by_human" then
    match parse_bool value with
    | some b => .ok { meta with approved_by_human := b }
    | none => .error .parseBoolError
  else if key = "agent_command" then
    .ok { meta with agent_command := some value }
  else if pfx "command." key.data then
    .ok { meta with custom_commands := mapInsertStr meta.custom_commands (dropPfx "command." key) value }
  else
    .error (.unknownKey key)

/-- Model of `ProjectMetaStore`: the map of project ids to metadata. -/
structure ProjectMetaStore where
  version : String
  projects : String → Option ProjectMeta

/-- Model of `ProjectMetaStore::set_value`. The Rust method mutates `self`
(its `entry(..).or_insert_with(..)` inserts a default record even when the
subsequent parse fails) and returns `Result<()>`; the translation returns the
updated store together with the outcome. -/
def ProjectMetaStore.set_value (store : ProjectMetaStore) (project_id key value : String) :
    ProjectMetaStore × Except MetaError Unit :=
  let meta := (store.projects project_id).getD defaultProjectMeta
  match meta.set_value key value with
  | .ok m' =>
    ({ store with projects := fun p => if p = project_id then some m' else store.projects p }, .ok ())
  | .error e =>
    ({ store with projects := fun p => if p = project_id then some meta else store.projects p }, .error e)

/-! ## Artifact aggregator (`src/scanner/parser.rs`, `parse_artifacts`) -/

/-- A file on disk as the aggregator sees it: metadata plus content (content
is consulted only by `validate_file`). -/
structure MFile where
  size : Nat
  modified : Int
  content : String
deriving DecidableEq, Repr

/-- Model of `validate_file`: readable and trimmed content non-empty. -/
def validate_file (f : MFile) : Bool := !(trim f.content.data).isEmpty

/-- Model of `parse_file_info` at a path that exists. -/
def parse_file_info (path : String) (f : MFile) : FileInfo :=
  ⟨path, f.size, f.modified, validate_file f⟩

/-- The files `check_direct_artifacts` looks up inside one directory. -/
structure Dir where
  constitution_md : Option MFile
  memory_constitution_md : Option MFile
  spec_md : Option MFile
  plan_md : Option MFile
  tasks_md : Option MFile
deriving DecidableEq, Repr

/-- Model of `check_direct_artifacts`: the four canonical filenames, with
`<dir>/constitution.md` preferred over `<dir>/memory/constitution.md`. -/
def check_direct_artifacts (path : String) (d : Dir) : ArtifactStatus :=
  { constitution :=
      match d.constitution_md with
      | some f => some (parse_file_info (path ++ "/constitution.md") f)
      | none => d.memory_constitution_md.map (parse_file_info (path ++ "/memory/constitution.md"))
    spec := d.spec_md.map (parse_file_info (path ++ "/spec.md"))
    plan := d.plan_md.map (parse_file_info (path ++ "/plan.md"))
    tasks := d.tasks_md.map (parse_file_info (path ++ "/tasks.md")) }

/-- Model of `has_any_artifact`. -/
def has_any_artifact (status : ArtifactStatus) : Bool :=
  status.constitution.isSome || status.spec.isSome ||
  status.plan.isSome || status.tasks.isSome

/-- A candidate artifact directory: its direct files, its immediate
subdirectories (name and contents, in readdir order), and the optional
`<parent>/.specify/memory/constitution.md`. -/
structure SpecDir where
  direct : Dir
  subdirs : List (String × Dir)
  parent_memory_constitution : Option MFile
deriving Repr

/-- The numbered-feature-directory filter: the first three characters of the
name, as far as they exist, are all ASCII digits (Rust
`name.chars().take(3).all(is_ascii_digit)`, vacuously true on short names). -/
def is_numbered_name (name : String) : Bool := (name.data.take 3).all Char.isDigit

/-- Computable lexicographic comparison of char sequences; agrees with the
byte order Rust's `OsString` sort key uses, since UTF-8 preserves
code-point order. -/
def lexLe : List Char → List Char → Bool
  | [], _ => true
  | _ :: _, [] => false
  | a :: as, b :: bs => if a < b then true else if b < a then false else lexLe as bs

/-- The sort relation of `feature_dirs.sort_by_key(|e| e.file_name())`. -/
def featLe (a b : String × Dir) : Prop := lexLe a.1.data b.1.data = true

instance : DecidableRel featLe := fun a b => instDecidableEqBool (lexLe a.1.data b.1.data) true

/-- Model of the `sort_by_key` call: sort the filtered entries by name. -/
def sortFeats (l : List (String × Dir)) : List (String × Dir) :=
  List.insertionSort featLe l

/-- The all-`None` `ArtifactStatus` the function starts from and falls back to. -/
def emptyStatus : ArtifactStatus := ⟨none, none, none, none⟩

/-- The body of the `for feature_dir in feature_dirs.iter().rev()` loop:
fill the spec and plan slots if still empty, collect the tasks file. -/
def featStep (specify_path : String) (acc : ArtifactStatus × List FileInfo)
    (fd : String × Dir) : ArtifactStatus × List FileInfo :=
  let feature_status := check_direct_artifacts (specify_path ++ "/" ++ fd.1) fd.2
  let a1 := if acc.1.spec.isNone && feature_status.spec.isSome then
      { acc.1 with spec := feature_status.spec } else acc.1
  let a2 := if a1.plan.isNone && feature_status.plan.isSome then
      { a1 with plan := feature_status.plan } else a1
  let ts := match feature_status.tasks with
    | some t => acc.2 ++ [t]
    | none => acc.2
  (a2, ts)

/-- The numbered-feature-directory branch of `parse_artifacts` (everything
after the direct lookup has found nothing): filter the subdirectories whose
name starts with three digits, sort by name, look up the parent
constitution, run the newest-to-oldest fill loop, surface the first
collected tasks file, and fall back to the empty status if the aggregate is
still empty. -/
def aggregate_features (specify_path parent_path : String) (sd : SpecDir) : ArtifactStatus :=
  let feature_dirs := sortFeats (sd.subdirs.filter (fun fd => is_numbered_name fd.1))
  let constitution := sd.parent_memory_constitution.map
    (parse_file_info (parent_path ++ "/.specify/memory/constitution.md"))
  let init : ArtifactStatus × List FileInfo := (⟨constitution, none, none, none⟩, [])
  let res := feature_dirs.reverse.foldl (featStep specify_path) init
  let aggregated := match res.2 with
    | [] => res.1
    | t :: _ => { res.1 with tasks := some t }
  if has_any_artifact aggregated then aggregated else emptyStatus

/-- Model of `parse_artifacts`. `specify_path` is the candidate directory's
path and `parent_path` its parent's (used only to label the
`.specify/memory/constitution.md` lookup, whose existence is the
`parent_memory_constitution` field). -/
def parse_artifacts (specify_path parent_path : String) (sd : SpecDir) : ArtifactStatus :=
  let direct := check_direct_artifacts specify_path sd.direct
  if has_any_artifact direct then direct
  else aggregate_features specify_path parent_path sd

/-- Modelled from the spec: the selection rule the specification describes for
the spec.md slot — "take the first non-empty hit found while iterating
newest→oldest", i.e. skip a feature directory whose file exists but whose
trimmed content is empty. Stated over the descending-ordered feature list,
for comparison against `parse_artifacts`. -/
def claimed_first_nonempty_spec (specify_path : String) :
    List (String × Dir) → Option FileInfo
  | [] => none
  | fd :: rest =>
    match fd.2.spec_md with
    | some f =>
      if validate_file f then
        some (parse_file_info (specify_path ++ "/" ++ fd.1 ++ "/spec.md") f)
      else claimed_first_nonempty_spec specify_path rest
    | none => claimed_first_nonempty_spec specify_path rest

/-- First-hit selection over a feature list for the spec.md slot (what the
fold below actually computes). -/
def specFirst (specify_path : String) : List (String × Dir) → Option FileInfo
  | [] => none
  | fd :: rest =>
    match fd.2.spec_md with
    | some f => some (parse_file_info (specify_path ++ "/" ++ fd.1 ++ "/spec.md") f)
    | none => specFirst specify_path rest

/-- First-hit selection over a feature list for the plan.md slot. -/
def planFirst (specify_path : String) : List (String × Dir) → Option FileInfo
  | [] => none
  | fd :: rest =>
    match fd.2.plan_md with
    | some f => some (parse_file_info (specify_path ++ "/" ++ fd.1 ++ "/plan.md") f)
    | none => planFirst specify_path rest

/-- A feature directory holding only a spec.md with the given content. -/
def specOnlyDir (content : String) : Dir :=
  ⟨none, none, some ⟨content.length, 0, content⟩, none, none⟩

/-- The empty directory. -/
def emptyDir : Dir := ⟨none, none, none, none, none⟩

/-- Concrete input for settling the numbered-feature selection rule: no direct
artifacts; feature `001-a` has a spec.md with real content, feature `002-b`
has a spec.md whose content is whitespace only. -/
def exSD : SpecDir :=
  ⟨emptyDir, [("001-a", specOnlyDir "hello"), ("002-b", specOnlyDir "   ")], none⟩

/-! ## Concrete fixtures used by witnesses and counterexamples -/

/-- An artifact set holding only a constitution and a specification. -/
def exArtifactsCS : ArtifactStatus :=
  ⟨some ⟨"c.md", 1, 0, true⟩, some ⟨"s.md", 1, 0, true⟩, none, none⟩

/-- An artifact set with all four slots present. -/
def exArtifactsAll : ArtifactStatus :=
  ⟨some ⟨"c.md", 1, 0, true⟩, some ⟨"s.md", 1, 0, true⟩,
   some ⟨"p.md", 1, 0, true⟩, some ⟨"t.md", 1, 0, true⟩⟩

/-- A candidate directory whose direct layout holds a spec.md and which also
has a numbered feature subdirectory. -/
def exSDdirect : SpecDir :=
  ⟨specOnlyDir "root spec", [("001-a", specOnlyDir "feature spec")], none⟩

/-- An empty metadata store. -/
def exStore : ProjectMetaStore := ⟨"1.0.0", fun _ => none⟩

/-! ## Verified properties -/

/-- C1: `detect_stage` evaluates its rules in the fixed order of the source:
no constitution yields `Bootstrap`; otherwise no specification yields
`Specify`; otherwise no plan yields `Plan`; otherwise no task list yields
`Tasks`; otherwise absence of implementation artifacts for the project kind
yields `Implement`; otherwise `Test`. In particular a set with constitution
and specification but no plan yields `Plan`, and detection is deterministic. -/
theorem claim_C1_detect_stage_order : ∀ (a : ArtifactStatus) (pt : ProjectType),
    (a.constitution = none → detect_stage a pt = .Bootstrap)
    ∧ (a.constitution.isSome = true → a.spec = none → detect_stage a pt = .Specify)
    ∧ (a.constitution.isSome = true → a.spec.isSome = true → a.plan = none →
        detect_stage a pt = .Plan)
    ∧ (a.constitution.isSome = true → a.spec.isSome = true → a.plan.isSome = true →
        a.tasks = none → detect_stage a pt = .Tasks)
    ∧ (a.constitution.isSome = true → a.spec.isSome = true → a.plan.isSome = true →
        a.tasks.isSome = true → has_implementation_artifacts a pt = false →
        detect_stage a pt = .Implement)
    ∧ (a.constitution.isSome = true → a.spec.isSome = true → a.plan.isSome = true →
        a.tasks.isSome = true → has_implementation_artifacts a pt = true →
        detect_stage a pt = .Test)
    ∧ detect_stage a pt = detect_stage a pt := by
  intro a pt
  obtain ⟨c, s, p, t⟩ := a
  refine ⟨?_, ?_, ?_, ?_, ?_, ?_, rfl⟩
  · intro h; subst h; rfl
  · intro h1 h2; subst h2
    cases c with
    | none => simp at h1
    | some _ => rfl
  · intro h1 h2 h3; subst h3
    cases c with
    | none => simp at h1
    | some _ => cases s with
      | none => simp at h2
      | some _ => rfl
  · intro h1 h2 h3 h4; subst h4
    cases c with
    | none => simp at h1
    | some _ => cases s with
      | none => simp at h2
      | some _ => cases p with
        | none => simp at h3
        | some _ => rfl
  · intro h1 h2 h3 h4 h5
    cases c <;> cases s <;> cases p <;> cases t <;>
      simp_all [detect_stage, h5]
  · intro h1 h2 h3 h4 h5
    cases c <;> cases s <;> cases p <;> cases t <;>
      simp_all [detect_stage, h5]

/-- Witness for C1 at the spec's example: only constitution and specification
present yields stage `Plan`. -/
theorem claim_C1_witness :
    exArtifactsCS.constitution.isSome = true ∧ exArtifactsCS.spec.isSome = true ∧
    exArtifactsCS.plan = none ∧ detect_stage exArtifactsCS .Rust = .Plan :=
  ⟨rfl, rfl, rfl, (claim_C1_detect_stage_order exArtifactsCS .Rust).2.2.1 rfl rfl rfl⟩

/-- C9: `has_implementation_artifacts` returns `false` for every input, so
`detect_stage` never returns `Test`, `Review` or `Done`, and whenever all
four artifact slots are present it returns `Implement`. -/
theorem claim_C9_implement_ceiling : ∀ (a : ArtifactStatus) (pt : ProjectType),
    has_implementation_artifacts a pt = false
    ∧ detect_stage a pt ≠ .Test
    ∧ detect_stage a pt ≠ .Review
    ∧ detect_stage a pt ≠ .Done
    ∧ (a.constitution.isSome = true → a.spec.isSome = true → a.plan.isSome = true →
        a.tasks.isSome = true → detect_stage a pt = .Implement) := by
  intro a pt
  obtain ⟨c, s, p, t⟩ := a
  have hf : has_implementation_artifacts ⟨c, s, p, t⟩ pt = false := by
    cases pt <;> rfl
  refine ⟨hf, ?_, ?_, ?_, ?_⟩
  · cases c <;> cases s <;> cases p <;> cases t <;> simp [detect_stage, hf]
  · cases c <;> cases s <;> cases p <;> cases t <;> simp [detect_stage, hf]
  · cases c <;> cases s <;> cases p <;> cases t <;> simp [detect_stage, hf]
  · intro h1 h2 h3 h4
    cases c <;> cases s <;> cases p <;> cases t <;> simp_all [detect_stage, hf]

/-- Witness for C9: with all four artifacts present the detected stage is
`Implement`. -/
theorem claim_C9_witness :
    exArtifactsAll.constitution.isSome = true ∧ exArtifactsAll.spec.isSome = true ∧
    exArtifactsAll.plan.isSome = true ∧ exArtifactsAll.tasks.isSome = true ∧
    detect_stage exArtifactsAll .Rust = .Implement :=
  ⟨rfl, rfl, rfl, rfl,
    (claim_C9_implement_ceiling exArtifactsAll .Rust).2.2.2.2 rfl rfl rfl rfl⟩

/-- C7: the single line `"- [x] T001: setup [P]"` is taken by the
checked-checkbox branch and contributes exactly `total+=1`, `completed+=1`,
`parallel_marked+=1`, `blocked+=0`. -/
theorem claim_C7_checked_checkbox_line :
    parse_tasks_file "- [x] T001: setup [P]".data 42 = ⟨1, 1, 1, 0, some 42⟩ ∧
    pfx "- [x]" (trim "- [x] T001: setup [P]".data) = true := by
  constructor
  · decide
  · decide

/-- C4 is contradicted by the code: a line with a `TODO:` or `DONE:` prefix
always contains a colon, so the `else if` chain consumes it in the
task-identifier branch, whose `T\d{3,4}:` pattern then fails to match and
nothing is counted. The `TODO:`/`DONE:` branches of the loop are
unreachable, against the function's own doc comment. -/
theorem claim_C4_code_eval :
    parse_tasks_file "TODO: fix login".data 0 = ⟨0, 0, 0, 0, some 0⟩
    ∧ parse_tasks_file "DONE: set up CI".data 0 = ⟨0, 0, 0, 0, some 0⟩
    ∧ pfx "TODO:" (trim "TODO: fix login".data) = true
    ∧ pfx "DONE:" (trim "DONE: set up CI".data) = true
    ∧ (trim "TODO: fix login".data).contains ':' = true
    ∧ taskPatternMatch (trim "TODO: fix login".data) = false := by
  refine ⟨?_, ?_, ?_, ?_, ?_, ?_⟩ <;> decide

/-- Truncating (toward-zero) integer division by a positive constant is
monotone; this is the rounding `chrono`'s `num_days`/`num_minutes` use. -/
theorem tdiv_mono_left {d : Int} (hd : 0 < d) {a b : Int} (h : a ≤ b) :
    a.tdiv d ≤ b.tdiv d := by
  have key : ∀ x y : Int, 0 ≤ x → x ≤ y → x.tdiv d ≤ y.tdiv d := by
    intro x y hx hxy
    obtain ⟨m, rfl⟩ := Int.eq_ofNat_of_zero_le hx
    obtain ⟨n, rfl⟩ := Int.eq_ofNat_of_zero_le (le_trans hx hxy)
    obtain ⟨k, rfl⟩ := Int.eq_ofNat_of_zero_le hd.le
    rw [← Int.ofNat_tdiv, ← Int.ofNat_tdiv]
    exact_mod_cast Nat.div_le_div_right (by exact_mod_cast hxy)
  by_cases ha : 0 ≤ a
  · exact key a b ha h
  · push_neg at ha
    by_cases hb : 0 ≤ b
    · have h1 : a.tdiv d ≤ 0 := by
        have := key (-a) (-a) (by omega) le_rfl
        have hnn : 0 ≤ (-a).tdiv d := Int.tdiv_nonneg (by omega) hd.le
        have : a.tdiv d = -((-a).tdiv d) := by
          rw [Int.neg_tdiv, neg_neg]
        omega
      have h2 : 0 ≤ b.tdiv d := Int.tdiv_nonneg hb hd.le
      omega
    · push_neg at hb
      have h3 : (-b).tdiv d ≤ (-a).tdiv d := key (-b) (-a) (by omega) (by omega)
      have e1 : a.tdiv d = -((-a).tdiv d) := by rw [Int.neg_tdiv, neg_neg]
      have e2 : b.tdiv d = -((-b).tdiv d) := by rw [Int.neg_tdiv, neg_neg]
      omega

/-- Staleness does not decrease when the last-update timestamp moves into the
past (the clock held fixed). -/
theorem calculate_staleness_antitone (now : Int) {l1 l2 : Int} (h : l2 ≤ l1) :
    calculate_staleness now l1 ≤ calculate_staleness now l2 := by
  unfold calculate_staleness num_days
  have hdd : (now - l1).tdiv 86400 ≤ (now - l2).tdiv 86400 :=
    tdiv_mono_left (by norm_num) (by omega)
  have hq : (((now - l1).tdiv 86400 : Int) : ℚ) ≤ (((now - l2).tdiv 86400 : Int) : ℚ) := by
    exact_mod_cast hdd
  have hdiv : (((now - l1).tdiv 86400 : Int) : ℚ) / 7 ≤ (((now - l2).tdiv 86400 : Int) : ℚ) / 7 :=
    div_le_div_of_nonneg_right hq (by norm_num) |>.trans_eq rfl
  exact max_le_max (min_le_min hdiv le_rfl) le_rfl

/-- C5: with the default weights, the priority score is monotonically
non-decreasing in the risk level and in staleness (it rises, weakly, as
`last_updated` moves into the past), and monotonically non-increasing in
confidence, all other inputs held fixed. -/
theorem claim_C5_priority_monotone :
    ∀ (rh : List HumanRequirement) (r1 r2 : Nat) (now l1 l2 : Int) (imp c1 c2 : Nat),
    (r1 ≤ r2 →
      PriorityCalculator.calculate defaultWeights rh r1 now l1 imp c1 ≤
      PriorityCalculator.calculate defaultWeights rh r2 now l1 imp c1)
    ∧ (l2 ≤ l1 →
      PriorityCalculator.calculate defaultWeights rh r1 now l1 imp c1 ≤
      PriorityCalculator.calculate defaultWeights rh r1 now l2 imp c1)
    ∧ (c1 ≤ c2 →
      PriorityCalculator.calculate defaultWeights rh r1 now l1 imp c2 ≤
      PriorityCalculator.calculate defaultWeights rh r1 now l1 imp c1) := by
  intro rh r1 r2 now l1 l2 imp c1 c2
  refine ⟨?_, ?_, ?_⟩
  · intro h
    unfold PriorityCalculator.calculate normalize_risk
    have hr : ((r1 : ℚ)) / 3 ≤ ((r2 : ℚ)) / 3 :=
      div_le_div_of_nonneg_right (by exact_mod_cast h) (by norm_num)
    dsimp only
    have := mul_le_mul_of_nonneg_left hr (by norm_num [defaultWeights] : (0:ℚ) ≤ defaultWeights.risk)
    linarith
  · intro h
    unfold PriorityCalculator.calculate
    have hs := calculate_staleness_antitone now h
    dsimp only
    have := mul_le_mul_of_nonneg_left hs (by norm_num [defaultWeights] : (0:ℚ) ≤ defaultWeights.staleness)
    linarith
  · intro h
    unfold PriorityCalculator.calculate normalize_confidence
    have hc : ((c1 : ℚ)) / 2 ≤ ((c2 : ℚ)) / 2 :=
      div_le_div_of_nonneg_right (by exact_mod_cast h) (by norm_num)
    dsimp only
    have := mul_le_mul_of_nonneg_left hc (by norm_num [defaultWeights] : (0:ℚ) ≤ defaultWeights.confidence)
    linarith

/-- Witness for C5 at concrete inputs: risk 1 vs 2, last-update one day
earlier, confidence 1 vs 2. -/
theorem claim_C5_witness :
    (1 ≤ 2) ∧
    (PriorityCalculator.calculate defaultWeights [] 1 86400 0 2 1 ≤
     PriorityCalculator.calculate defaultWeights [] 2 86400 0 2 1) ∧
    ((-86400 : Int) ≤ 0) ∧
    (PriorityCalculator.calculate defaultWeights [] 1 86400 0 2 1 ≤
     PriorityCalculator.calculate defaultWeights [] 1 86400 (-86400) 2 1) ∧
    (PriorityCalculator.calculate defaultWeights [] 1 86400 0 2 2 ≤
     PriorityCalculator.calculate defaultWeights [] 1 86400 0 2 1) :=
  ⟨by norm_num,
   (claim_C5_priority_monotone [] 1 2 86400 0 0 2 1 1).1 (by norm_num),
   by norm_num,
   (claim_C5_priority_monotone [] 1 1 86400 0 (-86400) 2 1 1).2.1 (by norm_num),
   (claim_C5_priority_monotone [] 1 1 86400 0 0 2 1 2).2.2 (by norm_num)⟩

/-- C6: a snapshot saved at time `T` is returned by `load` for any query time
in `[T, T+5min)`, absent for any query time at or beyond `T+5min`, and a
missing cache file yields absent rather than an error. -/
theorem claim_C6_cache_freshness : ∀ (c : StatusCacheData) (now : Int),
    (c.last_updated ≤ now → now < c.last_updated + 300 →
      StatusCache.load (some (.ok c)) now = .ok (some c))
    ∧ (c.last_updated + 300 ≤ now →
      StatusCache.load (some (.ok c)) now = .ok none)
    ∧ StatusCache.load none now = .ok none := by
  intro c now
  refine ⟨?_, ?_, rfl⟩
  · intro h1 h2
    have hage : 0 ≤ now - c.last_updated := by omega
    obtain ⟨m, hm⟩ := Int.eq_ofNat_of_zero_le hage
    have hmlt : m < 300 := by omega
    have hdiv : (now - c.last_updated).tdiv 60 < 5 := by
      rw [hm]
      have : ((m / 60 : Nat) : Int) = (m : Int).tdiv ((60 : Nat) : Int) := Int.ofNat_tdiv m 60
      rw [show ((60 : Nat) : Int) = (60 : Int) by norm_num] at this
      rw [← this]
      have : m / 60 < 5 := (Nat.div_lt_iff_lt_mul (by norm_num)).mpr hmlt
      exact_mod_cast this
    simp [StatusCache.load, hdiv]
  · intro h
    have hage : 0 ≤ now - c.last_updated := by omega
    obtain ⟨m, hm⟩ := Int.eq_ofNat_of_zero_le hage
    have hmge : 300 ≤ m := by omega
    have hdiv : ¬ (now - c.last_updated).tdiv 60 < 5 := by
      rw [hm]
      have he : ((m / 60 : Nat) : Int) = (m : Int).tdiv ((60 : Nat) : Int) := Int.ofNat_tdiv m 60
      rw [show ((60 : Nat) : Int) = (60 : Int) by norm_num] at he
      rw [← he]
      have : 5 ≤ m / 60 := (Nat.le_div_iff_mul_le (by norm_num)).mpr (by omega)
      push_neg
      exact_mod_cast this
    simp [StatusCache.load, hdiv]

/-- Witness for C6 at `T = 0`: present at query times 0 and 299, absent at
300, and a missing file gives absent. -/
theorem claim_C6_witness :
    ((0 : Int) ≤ 299 ∧ (299 : Int) < 0 + 300 ∧
      StatusCache.load (some (.ok ⟨0, "x"⟩)) 299 = .ok (some ⟨0, "x"⟩)) ∧
    ((0 : Int) + 300 ≤ 300 ∧
      StatusCache.load (some (.ok ⟨0, "x"⟩)) 300 = .ok none) ∧
    StatusCache.load (none : Option (Except CacheError StatusCacheData)) 299 = .ok none :=
  ⟨⟨by norm_num, by norm_num,
     (claim_C6_cache_freshness ⟨0, "x"⟩ 299).1 (by norm_num) (by norm_num)⟩,
   ⟨by norm_num, (claim_C6_cache_freshness ⟨0, "x"⟩ 300).2.1 (by norm_num)⟩,
   (claim_C6_cache_freshness ⟨0, "x"⟩ 299).2.2⟩

/-- A char list is a prefix of itself followed by anything. -/
theorem isPrefixOf_append_self : ∀ (l m : List Char), l.isPrefixOf (l ++ m) = true := by
  intro l m
  induction l with
  | nil => simp [List.isPrefixOf]
  | cons a as ih => simp [List.isPrefixOf, ih]

/-- A key of the form `command.<name>` passes the `starts_with("command.")`
test. -/
theorem pfx_command_append (name : String) : pfx "command." ("command." ++ name).data = true := by
  unfold pfx
  rw [String.data_append]
  exact isPrefixOf_append_self _ _

/-- Stripping the tested `command.` front of `command.<name>` leaves `<name>`. -/
theorem dropPfx_command_append (name : String) : dropPfx "command." ("command." ++ name) = name := by
  unfold dropPfx
  rw [String.data_append]
  rw [show ("command." : String).data.length = 8 from rfl]
  rw [show ("command." : String).data = ['c','o','m','m','a','n','d','.'] from rfl]
  cases name
  rfl

/-- C8: `set_value` parses and stores `impact` as an integer,
`approved_by_human` as a boolean, `agent_command` as the raw string, routes
`command.<name>` into the custom-commands mapping under `<name>`, and rejects
every other key with an unknown-key error. -/
theorem claim_C8_set_value_keys : ∀ (store : ProjectMetaStore) (pid value : String),
    (∀ n, parse_u8 value = some n →
      (store.set_value pid "impact" value).2 = .ok () ∧
      (store.set_value pid "impact" value).1.projects pid =
        some { (store.projects pid).getD defaultProjectMeta with impact := some n })
    ∧ (∀ b, parse_bool value = some b →
      (store.set_value pid "approved_by_human" value).2 = .ok () ∧
      (store.set_value pid "approved_by_human" value).1.projects pid =
        some { (store.projects pid).getD defaultProjectMeta with approved_by_human := b })
    ∧ ((store.set_value pid "agent_command" value).2 = .ok () ∧
      (store.set_value pid "agent_command" value).1.projects pid =
        some { (store.projects pid).getD defaultProjectMeta with agent_command := some value })
    ∧ (∀ name : String,
      (store.set_value pid ("command." ++ name) value).2 = .ok () ∧
      ∃ m, (store.set_value pid ("command." ++ name) value).1.projects pid = some m ∧
        mapLookupStr m.custom_commands name = some value)
    ∧ (∀ key : String, key ≠ "impact" → key ≠ "approved_by_human" →
        key ≠ "agent_command" → pfx "command." key.data = false →
        (store.set_value pid key value).2 = .error (.unknownKey key)) := by
  intro store pid value
  refine ⟨?_, ?_, ?_, ?_, ?_⟩
  · intro n hn
    simp [ProjectMetaStore.set_value, ProjectMeta.set_value, hn]
  · intro b hb
    simp [ProjectMetaStore.set_value, ProjectMeta.set_value, hb]
  · simp [ProjectMetaStore.set_value, ProjectMeta.set_value]
  · intro name
    have hpf := pfx_command_append name
    have h1 : ("command." ++ name) ≠ "impact" := by
      intro heq; rw [heq] at hpf; exact absurd hpf (by decide)
    have h2 : ("command." ++ name) ≠ "approved_by_human" := by
      intro heq; rw [heq] at hpf; exact absurd hpf (by decide)
    have h3 : ("command." ++ name) ≠ "agent_command" := by
      intro heq; rw [heq] at hpf; exact absurd hpf (by decide)
    have hmeta : ∀ meta : ProjectMeta, meta.set_value ("command." ++ name) value =
        .ok { meta with custom_commands := mapInsertStr meta.custom_commands name value } := by
      intro meta
      unfold ProjectMeta.set_value
      rw [if_neg h1, if_neg h2, if_neg h3, if_pos hpf, dropPfx_command_append]
    refine ⟨?_, ?_⟩
    · simp [ProjectMetaStore.set_value, hmeta]
    · refine ⟨{ (store.projects pid).getD defaultProjectMeta with
        custom_commands := mapInsertStr
          ((store.projects pid).getD defaultProjectMeta).custom_commands name value }, ?_, ?_⟩
      · simp [ProjectMetaStore.set_value, hmeta]
      · simp [mapLookupStr, mapInsertStr, List.find?]
  · intro key h1 h2 h3 h4
    simp [ProjectMetaStore.set_value, ProjectMeta.set_value, h1, h2, h3, h4]

/-- Witness for C8: setting `impact` to `"2"` on an empty store succeeds and
stores the parsed integer. -/
theorem claim_C8_witness :
    parse_u8 "2" = some 2 ∧
    (exStore.set_value "p" "impact" "2").2 = .ok () ∧
    (exStore.set_value "p" "impact" "2").1.projects "p" =
      some { (exStore.projects "p").getD defaultProjectMeta with impact := some 2 } := by
  have h := (claim_C8_set_value_keys exStore "p" "2").1 2 (by decide)
  exact ⟨by decide, h.1, h.2⟩

/-- Per-line effect of the scanning loop: each line adds at most one to
`total`, and adds to `completed`, `parallel_marked` and `blocked` no more
than it adds to `total` (so each counter moves at most once per line, and
only on a line that is counted). -/
theorem lineStep_delta (s : TaskCounts) (line : List Char) :
    ∃ dt dc dp db, dt ≤ 1 ∧ dc ≤ dt ∧ dp ≤ dt ∧ db ≤ dt ∧
      lineStep s line =
        ⟨s.total + dt, s.completed + dc, s.parallel_marked + dp, s.blocked + db⟩ := by
  unfold lineStep
  dsimp only
  set q1 := (if hasSub "[P]" line || hasSub "(P)" line || hasSub "||" line then (1:Nat) else 0)
    with hq1
  set r1 := (if hasSub "[BLOCKED]" line || hasSub "🚫" line || hasSub "⛔" line then (1:Nat) else 0)
    with hr1
  set c3 := (if hasSub "✅" line || hasSub "DONE" line || hasSub "[COMPLETE]" line ||
      hasSub "[x]" line || hasSub "[X]" line then (1:Nat) else 0) with hc3
  set q3 := (if hasSub "[P]" line || hasSub "||" line then (1:Nat) else 0) with hq3
  set r3 := (if hasSub "[BLOCKED]" line || hasSub "🚫" line then (1:Nat) else 0) with hr3
  have hq1le : q1 ≤ 1 := by rw [hq1]; split <;> omega
  have hr1le : r1 ≤ 1 := by rw [hr1]; split <;> omega
  have hc3le : c3 ≤ 1 := by rw [hc3]; split <;> omega
  have hq3le : q3 ≤ 1 := by rw [hq3]; split <;> omega
  have hr3le : r3 ≤ 1 := by rw [hr3]; split <;> omega
  split_ifs
  · exact ⟨1, 0, q1, r1, le_rfl, by omega, hq1le, hr1le, rfl⟩
  · exact ⟨1, 1, q1, 0, le_rfl, le_rfl, hq1le, by omega, rfl⟩
  · exact ⟨1, c3, q3, r3, le_rfl, hc3le, hq3le, hr3le, rfl⟩
  · exact ⟨0, 0, 0, 0, by omega, le_rfl, le_rfl, le_rfl, rfl⟩
  · exact ⟨1, 1, 0, 0, le_rfl, le_rfl, by omega, by omega, rfl⟩
  · exact ⟨1, 0, 0, 0, le_rfl, by omega, by omega, by omega, rfl⟩
  · exact ⟨1, 0, 0, 0, le_rfl, by omega, by omega, by omega, rfl⟩
  · exact ⟨1, 1, 0, 0, le_rfl, le_rfl, by omega, by omega, rfl⟩
  · exact ⟨0, 0, 0, 0, by omega, le_rfl, le_rfl, le_rfl, rfl⟩

/-- The loop invariant: folding `lineStep` preserves the three
counter-domination inequalities. -/
theorem foldl_lineStep_inv (l : List (List Char)) : ∀ s : TaskCounts,
    s.completed ≤ s.total → s.parallel_marked ≤ s.total → s.blocked ≤ s.total →
    (l.foldl lineStep s).completed ≤ (l.foldl lineStep s).total
    ∧ (l.foldl lineStep s).parallel_marked ≤ (l.foldl lineStep s).total
    ∧ (l.foldl lineStep s).blocked ≤ (l.foldl lineStep s).total := by
  induction l with
  | nil => intro s h1 h2 h3; exact ⟨h1, h2, h3⟩
  | cons a rest ih =>
    intro s h1 h2 h3
    rw [List.foldl_cons]
    obtain ⟨dt, dc, dp, db, hdt, hdc, hdp, hdb, heq⟩ := lineStep_delta s a
    refine ih (lineStep s a) ?_ ?_ ?_ <;> rw [heq] <;> dsimp <;> omega

/-- C10: on every input text the task counters satisfy `completed ≤ total`,
`parallel_marked ≤ total` and `blocked ≤ total`, and each line moves `total`
by at most one and moves each other counter by no more than it moves
`total`. -/
theorem claim_C10_counter_invariants : ∀ content : List Char,
    ((parse_tasks_content content).completed ≤ (parse_tasks_content content).total
     ∧ (parse_tasks_content content).parallel_marked ≤ (parse_tasks_content content).total
     ∧ (parse_tasks_content content).blocked ≤ (parse_tasks_content content).total)
    ∧ ∀ (s : TaskCounts) (line : List Char),
        ∃ dt dc dp db, dt ≤ 1 ∧ dc ≤ dt ∧ dp ≤ dt ∧ db ≤ dt ∧
          lineStep s line =
            ⟨s.total + dt, s.completed + dc, s.parallel_marked + dp, s.blocked + db⟩ := by
  intro content
  exact ⟨foldl_lineStep_inv (linesOf content) ⟨0, 0, 0, 0⟩ (by decide) (by decide) (by decide),
         fun s line => lineStep_delta s line⟩

/-- C2: if the direct lookup inside the candidate directory finds at least
one of the four artifacts, `parse_artifacts` returns exactly that direct
result (the numbered feature subdirectories are never consulted), and within
the direct lookup `<dir>/constitution.md` is preferred over
`<dir>/memory/constitution.md`. -/
theorem claim_C2_direct_wins : ∀ (sp pp : String) (sd : SpecDir),
    (has_any_artifact (check_direct_artifacts sp sd.direct) = true →
      parse_artifacts sp pp sd = check_direct_artifacts sp sd.direct)
    ∧ (∀ f, sd.direct.constitution_md = some f →
      (check_direct_artifacts sp sd.direct).constitution =
        some (parse_file_info (sp ++ "/constitution.md") f))
    ∧ (sd.direct.constitution_md = none →
      (check_direct_artifacts sp sd.direct).constitution =
        sd.direct.memory_constitution_md.map
          (parse_file_info (sp ++ "/memory/constitution.md"))) := by
  intro sp pp sd
  refine ⟨?_, ?_, ?_⟩
  · intro h
    unfold parse_artifacts
    simp [h]
  · intro f hf
    simp [check_direct_artifacts, hf]
  · intro h
    simp [check_direct_artifacts, h]

/-- Witness for C2: a root with a direct spec.md and a numbered feature
subdirectory resolves to the direct result alone. -/
theorem claim_C2_witness :
    has_any_artifact (check_direct_artifacts "specs" exSDdirect.direct) = true ∧
    parse_artifacts "specs" "proj" exSDdirect = check_direct_artifacts "specs" exSDdirect.direct :=
  ⟨by decide, (claim_C2_direct_wins "specs" "proj" exSDdirect).1 (by decide)⟩

/-- `lexLe` is reflexive. -/
theorem lexLe_refl : ∀ l : List Char, lexLe l l = true := by
  intro l
  induction l with
  | nil => rfl
  | cons a as ih => simp [lexLe, lt_self_iff_false, ih]

/-- `lexLe` is total. -/
theorem lexLe_total : ∀ a b : List Char, lexLe a b = true ∨ lexLe b a = true := by
  intro a
  induction a with
  | nil => intro b; left; rfl
  | cons x xs ih =>
    intro b
    cases b with
    | nil => right; rfl
    | cons y ys =>
      rcases lt_trichotomy x y with h | h | h
      · left; simp [lexLe, h]
      · subst h
        rcases ih ys with h2 | h2
        · left; simp [lexLe, lt_self_iff_false, h2]
        · right; simp [lexLe, lt_self_iff_false, h2]
      · right; simp [lexLe, h]

/-- `lexLe` is transitive. -/
theorem lexLe_trans : ∀ a b c : List Char,
    lexLe a b = true → lexLe b c = true → lexLe a c = true := by
  intro a
  induction a with
  | nil => intro b c _ _; rfl
  | cons x xs ih =>
    intro b c hab hbc
    cases b with
    | nil => simp [lexLe] at hab
    | cons y ys =>
      cases c with
      | nil => simp [lexLe] at hbc
      | cons z zs =>
        simp only [lexLe] at hab hbc ⊢
        rcases lt_trichotomy x y with hxy | hxy | hxy
        · rcases lt_trichotomy y z with hyz | hyz | hyz
          · simp [lt_trans hxy hyz]
          · subst hyz; simp [hxy]
          · rw [if_neg (lt_asymm hyz), if_pos hyz] at hbc; simp at hbc
        · subst hxy
          rcases lt_trichotomy x z with hxz | hxz | hxz
          · simp [hxz]
          · subst hxz
            rw [if_neg (lt_irrefl x), if_neg (lt_irrefl x)] at hab hbc ⊢
            exact ih ys zs hab hbc
          · rw [if_neg (lt_asymm hxz), if_pos hxz] at hbc; simp at hbc
        · rw [if_neg (lt_asymm hxy), if_pos hxy] at hab; simp at hab

/-- `featLe` is reflexive. -/
theorem featLe_refl (fd : String × Dir) : featLe fd fd := lexLe_refl fd.1.data

instance : IsTotal (String × Dir) featLe := ⟨fun a b => lexLe_total a.1.data b.1.data⟩

instance : IsTrans (String × Dir) featLe :=
  ⟨fun a b c hab hbc => lexLe_trans a.1.data b.1.data c.1.data hab hbc⟩

/-- The sorted feature list is ascending with respect to `featLe`. -/
theorem sortFeats_sorted (l : List (String × Dir)) : List.Sorted featLe (sortFeats l) :=
  List.sorted_insertionSort featLe l

/-- Sorting permutes the feature list. -/
theorem sortFeats_perm (l : List (String × Dir)) : (sortFeats l).Perm l :=
  List.perm_insertionSort featLe l

/-- The reversed sorted feature list is descending. -/
theorem sortFeats_reverse_pairwise (l : List (String × Dir)) :
    ((sortFeats l).reverse).Pairwise (fun a b => featLe b a) := by
  rw [List.pairwise_reverse]
  exact sortFeats_sorted l

/-- One loop iteration fills the spec slot exactly when it was still empty. -/
theorem featStep_spec (sp : String) (acc : ArtifactStatus × List FileInfo) (fd : String × Dir) :
    (featStep sp acc fd).1.spec =
      match acc.1.spec with
      | some x => some x
      | none => fd.2.spec_md.map (parse_file_info (sp ++ "/" ++ fd.1 ++ "/spec.md")) := by
  unfold featStep check_direct_artifacts
  dsimp only
  cases hs : acc.1.spec with
  | some x => simp [hs, apply_ite ArtifactStatus.spec]
  | none =>
    cases hf : fd.2.spec_md with
    | some f => simp [hs, hf, apply_ite ArtifactStatus.spec]
    | none => simp [hs, hf, apply_ite ArtifactStatus.spec]

/-- One loop iteration fills the plan slot exactly when it was still empty. -/
theorem featStep_plan (sp : String) (acc : ArtifactStatus × List FileInfo) (fd : String × Dir) :
    (featStep sp acc fd).1.plan =
      match acc.1.plan with
      | some x => some x
      | none => fd.2.plan_md.map (parse_file_info (sp ++ "/" ++ fd.1 ++ "/plan.md")) := by
  unfold featStep check_direct_artifacts
  dsimp only
  cases hp : acc.1.plan with
  | some x => simp [hp, apply_ite ArtifactStatus.plan, apply_ite ArtifactStatus.spec]
  | none =>
    cases hf : fd.2.plan_md with
    | some f => simp [hp, hf, apply_ite ArtifactStatus.plan, apply_ite ArtifactStatus.spec]
    | none => simp [hp, hf, apply_ite ArtifactStatus.plan, apply_ite ArtifactStatus.spec]

/-- The whole loop computes first-hit selection for the spec slot. -/
theorem foldl_featStep_spec (sp : String) : ∀ (l : List (String × Dir))
    (acc : ArtifactStatus × List FileInfo),
    ((l.foldl (featStep sp) acc).1).spec =
      match acc.1.spec with
      | some x => some x
      | none => specFirst sp l := by
  intro l
  induction l with
  | nil =>
    intro acc
    cases hs : acc.1.spec <;> simp [hs, specFirst]
  | cons fd rest ih =>
    intro acc
    rw [List.foldl_cons, ih, featStep_spec]
    cases hs : acc.1.spec with
    | some x => simp [hs]
    | none =>
      cases hf : fd.2.spec_md with
      | some f => simp [hf, specFirst]
      | none => simp [hf, specFirst]

/-- The whole loop computes first-hit selection for the plan slot. -/
theorem foldl_featStep_plan (sp : String) : ∀ (l : List (String × Dir))
    (acc : ArtifactStatus × List FileInfo),
    ((l.foldl (featStep sp) acc).1).plan =
      match acc.1.plan with
      | some x => some x
      | none => planFirst sp l := by
  intro l
  induction l with
  | nil =>
    intro acc
    cases hp : acc.1.plan <;> simp [hp, planFirst]
  | cons fd rest ih =>
    intro acc
    rw [List.foldl_cons, ih, featStep_plan]
    cases hp : acc.1.plan with
    | some x => simp [hp]
    | none =>
      cases hf : fd.2.plan_md with
      | some f => simp [hf, planFirst]
      | none => simp [hf, planFirst]

/-- The numbered-feature branch resolves the spec slot by first hit over the
descending-sorted feature directories (an empty aggregate falls back to the
empty status, whose spec slot agrees). -/
theorem aggregate_features_spec (sp pp : String) (sd : SpecDir) :
    (aggregate_features sp pp sd).spec =
      specFirst sp ((sortFeats (sd.subdirs.filter (fun fd => is_numbered_name fd.1))).reverse) := by
  unfold aggregate_features
  dsimp only
  set desc := (sortFeats (sd.subdirs.filter (fun fd => is_numbered_name fd.1))).reverse with hdesc
  set init : ArtifactStatus × List FileInfo :=
    (⟨sd.parent_memory_constitution.map
        (parse_file_info (pp ++ "/.specify/memory/constitution.md")), none, none, none⟩, [])
    with hinit
  have hR : ((desc.foldl (featStep sp) init).1).spec = specFirst sp desc := by
    rw [foldl_featStep_spec]
  set res := desc.foldl (featStep sp) init with hres
  have hA : (match res.2 with
      | [] => res.1
      | t :: _ => { res.1 with tasks := some t }).spec = specFirst sp desc := by
    cases h2 : res.2 with
    | nil => simpa using hR
    | cons t ts => simpa using hR
  set A := (match res.2 with
      | [] => res.1
      | t :: _ => { res.1 with tasks := some t }) with hAdef
  by_cases hany : has_any_artifact A = true
  · simp [hany, hA]
  · rw [if_neg hany]
    have hnone : A.spec = none := by
      cases hsp : A.spec with
      | none => rfl
      | some v =>
        exfalso
        apply hany
        simp [has_any_artifact, hsp]
    rw [show emptyStatus.spec = none from rfl, ← hA, hnone]

/-- The numbered-feature branch resolves the plan slot by first hit over the
descending-sorted feature directories. -/
theorem aggregate_features_plan (sp pp : String) (sd : SpecDir) :
    (aggregate_features sp pp sd).plan =
      planFirst sp ((sortFeats (sd.subdirs.filter (fun fd => is_numbered_name fd.1))).reverse) := by
  unfold aggregate_features
  dsimp only
  set desc := (sortFeats (sd.subdirs.filter (fun fd => is_numbered_name fd.1))).reverse with hdesc
  set init : ArtifactStatus × List FileInfo :=
    (⟨sd.parent_memory_constitution.map
        (parse_file_info (pp ++ "/.specify/memory/constitution.md")), none, none, none⟩, [])
    with hinit
  have hR : ((desc.foldl (featStep sp) init).1).plan = planFirst sp desc := by
    rw [foldl_featStep_plan]
  set res := desc.foldl (featStep sp) init with hres
  have hA : (match res.2 with
      | [] => res.1
      | t :: _ => { res.1 with tasks := some t }).plan = planFirst sp desc := by
    cases h2 : res.2 with
    | nil => simpa using hR
    | cons t ts => simpa using hR
  set A := (match res.2 with
      | [] => res.1
      | t :: _ => { res.1 with tasks := some t }) with hAdef
  by_cases hany : has_any_artifact A = true
  · simp [hany, hA]
  · rw [if_neg hany]
    have hnone : A.plan = none := by
      cases hpl : A.plan with
      | none => rfl
      | some v =>
        exfalso
        apply hany
        simp [has_any_artifact, hpl]
    rw [show emptyStatus.plan = none from rfl, ← hA, hnone]

/-- First-hit selection yields nothing exactly when no feature directory has
a spec.md. -/
theorem specFirst_eq_none (sp : String) : ∀ l : List (String × Dir),
    specFirst sp l = none ↔ ∀ fd ∈ l, fd.2.spec_md = none := by
  intro l
  induction l with
  | nil => simp [specFirst]
  | cons fd rest ih =>
    cases hf : fd.2.spec_md with
    | some f => simp [specFirst, hf]
    | none => simp [specFirst, hf, ih]

/-- On a descending list, the first hit comes from a directory whose name is
lexicographically greatest among all hits. -/
theorem specFirst_found (sp : String) : ∀ (l : List (String × Dir)),
    l.Pairwise (fun a b => featLe b a) → ∀ fi, specFirst sp l = some fi →
    ∃ fd f, fd ∈ l ∧ fd.2.spec_md = some f ∧
      fi = parse_file_info (sp ++ "/" ++ fd.1 ++ "/spec.md") f ∧
      ∀ fd' ∈ l, fd'.2.spec_md.isSome = true → featLe fd' fd := by
  intro l
  induction l with
  | nil => intro _ fi h; simp [specFirst] at h
  | cons fd rest ih =>
    intro hpw fi h
    have hhead : ∀ b ∈ rest, featLe b fd := (List.pairwise_cons.mp hpw).1
    have htail := (List.pairwise_cons.mp hpw).2
    cases hf : fd.2.spec_md with
    | some f =>
      have hfi : fi = parse_file_info (sp ++ "/" ++ fd.1 ++ "/spec.md") f := by
        simp [specFirst, hf] at h
        exact h.symm
      refine ⟨fd, f, List.mem_cons_self fd rest, hf, hfi, ?_⟩
      intro fd' hmem _
      rcases List.mem_cons.mp hmem with rfl | hmem'
      · exact featLe_refl fd'
      · exact hhead fd' hmem'
    | none =>
      have h' : specFirst sp rest = some fi := by
        simpa [specFirst, hf] using h
      obtain ⟨fd0, f, hmem, hsp, hfi, hmax⟩ := ih htail fi h'
      refine ⟨fd0, f, List.mem_cons_of_mem fd hmem, hsp, hfi, ?_⟩
      intro fd' hmem' hsome
      rcases List.mem_cons.mp hmem' with rfl | hmem''
      · rw [hf] at hsome; simp at hsome
      · exact hmax fd' hmem'' hsome

/-- On a descending list, the first plan hit comes from a directory whose
name is lexicographically greatest among all plan hits. -/
theorem planFirst_found (sp : String) : ∀ (l : List (String × Dir)),
    l.Pairwise (fun a b => featLe b a) → ∀ fi, planFirst sp l = some fi →
    ∃ fd f, fd ∈ l ∧ fd.2.plan_md = some f ∧
      fi = parse_file_info (sp ++ "/" ++ fd.1 ++ "/plan.md") f ∧
      ∀ fd' ∈ l, fd'.2.plan_md.isSome = true → featLe fd' fd := by
  intro l
  induction l with
  | nil => intro _ fi h; simp [planFirst] at h
  | cons fd rest ih =>
    intro hpw fi h
    have hhead : ∀ b ∈ rest, featLe b fd := (List.pairwise_cons.mp hpw).1
    have htail := (List.pairwise_cons.mp hpw).2
    cases hf : fd.2.plan_md with
    | some f =>
      have hfi : fi = parse_file_info (sp ++ "/" ++ fd.1 ++ "/plan.md") f := by
        simp [planFirst, hf] at h
        exact h.symm
      refine ⟨fd, f, List.mem_cons_self fd rest, hf, hfi, ?_⟩
      intro fd' hmem _
      rcases List.mem_cons.mp hmem with rfl | hmem'
      · exact featLe_refl fd'
      · exact hhead fd' hmem'
    | none =>
      have h' : planFirst sp rest = some fi := by
        simpa [planFirst, hf] using h
      obtain ⟨fd0, f, hmem, hsp, hfi, hmax⟩ := ih htail fi h'
      refine ⟨fd0, f, List.mem_cons_of_mem fd hmem, hsp, hfi, ?_⟩
      intro fd' hmem' hsome
      rcases List.mem_cons.mp hmem' with rfl | hmem''
      · rw [hf] at hsome; simp at hsome
      · exact hmax fd' hmem'' hsome

/-- C3 as stated is false on the code: with no direct artifacts and two
numbered features, the newer `002-b` holding a spec.md whose trimmed content
is empty and the older `001-a` holding a non-empty one, `parse_artifacts`
fills the spec slot from `002-b` (marked invalid) instead of skipping it in
favour of `001-a` as the claim's "first non-empty hit" rule requires. -/
theorem claim_C3_counterexample :
    validate_file ⟨5, 0, "hello"⟩ = true
    ∧ validate_file ⟨3, 0, "   "⟩ = false
    ∧ (parse_artifacts "specs" "proj" exSD).spec = some ⟨"specs/002-b/spec.md", 3, 0, false⟩
    ∧ claimed_first_nonempty_spec "specs"
        ((sortFeats (exSD.subdirs.filter (fun fd => is_numbered_name fd.1))).reverse) =
        some ⟨"specs/001-a/spec.md", 5, 0, true⟩
    ∧ (parse_artifacts "specs" "proj" exSD).spec ≠
        claimed_first_nonempty_spec "specs"
          ((sortFeats (exSD.subdirs.filter (fun fd => is_numbered_name fd.1))).reverse) := by
  refine ⟨?_, ?_, ?_, ?_, ?_⟩ <;> decide

/-- C3, amended as the code forces: when the direct lookup finds nothing,
the spec and plan slots are filled with the first *existing* hit while
iterating the name-sorted feature directories newest to oldest — a file
whose trimmed content is empty is not skipped (its emptiness is only
recorded in the `valid` flag) — and the winning directory's name is
lexicographically greatest among all directories holding that file. -/
theorem claim_C3_newest_existing_hit_wins : ∀ (sp pp : String) (sd : SpecDir),
    has_any_artifact (check_direct_artifacts sp sd.direct) = false →
    (∀ fi, (parse_artifacts sp pp sd).spec = some fi →
      ∃ fd f, fd ∈ sd.subdirs.filter (fun fd => is_numbered_name fd.1) ∧
        fd.2.spec_md = some f ∧
        fi = parse_file_info (sp ++ "/" ++ fd.1 ++ "/spec.md") f ∧
        ∀ fd' ∈ sd.subdirs.filter (fun fd => is_numbered_name fd.1),
          fd'.2.spec_md.isSome = true → featLe fd' fd)
    ∧ (∀ fi, (parse_artifacts sp pp sd).plan = some fi →
      ∃ fd f, fd ∈ sd.subdirs.filter (fun fd => is_numbered_name fd.1) ∧
        fd.2.plan_md = some f ∧
        fi = parse_file_info (sp ++ "/" ++ fd.1 ++ "/plan.md") f ∧
        ∀ fd' ∈ sd.subdirs.filter (fun fd => is_numbered_name fd.1),
          fd'.2.plan_md.isSome = true → featLe fd' fd)
    ∧ ((∃ fd ∈ sd.subdirs.filter (fun fd => is_numbered_name fd.1),
          fd.2.spec_md.isSome = true) →
        ((parse_artifacts sp pp sd).spec).isSome = true) := by
  intro sp pp sd hdirect
  have hpa : parse_artifacts sp pp sd = aggregate_features sp pp sd := by
    unfold parse_artifacts
    simp [hdirect]
  have hspec := aggregate_features_spec sp pp sd
  have hplan := aggregate_features_plan sp pp sd
  set feats := sd.subdirs.filter (fun fd => is_numbered_name fd.1) with hfeats
  set desc := (sortFeats feats).reverse with hdesc
  have hpw : desc.Pairwise (fun a b => featLe b a) := sortFeats_reverse_pairwise feats
  have hmemiff : ∀ fd : String × Dir, fd ∈ desc ↔ fd ∈ feats := by
    intro fd
    rw [hdesc, List.mem_reverse]
    exact (sortFeats_perm feats).mem_iff
  refine ⟨?_, ?_, ?_⟩
  · intro fi hfi
    rw [hpa, hspec] at hfi
    obtain ⟨fd, f, hmem, hsp, hfi', hmax⟩ := specFirst_found sp desc hpw fi hfi
    exact ⟨fd, f, (hmemiff fd).mp hmem, hsp, hfi',
      fun fd' h1 h2 => hmax fd' ((hmemiff fd').mpr h1) h2⟩
  · intro fi hfi
    rw [hpa, hplan] at hfi
    obtain ⟨fd, f, hmem, hsp, hfi', hmax⟩ := planFirst_found sp desc hpw fi hfi
    exact ⟨fd, f, (hmemiff fd).mp hmem, hsp, hfi',
      fun fd' h1 h2 => hmax fd' ((hmemiff fd').mpr h1) h2⟩
  · rintro ⟨fd, hmem, hsome⟩
    rw [hpa, hspec]
    cases hsf : specFirst sp desc with
    | some _ => simp
    | none =>
      have hall := (specFirst_eq_none sp desc).mp hsf fd ((hmemiff fd).mpr hmem)
      rw [hall] at hsome
      simp at hsome

/-- Witness for the amended C3: on the concrete two-feature layout the direct
lookup is empty and the spec slot ends up filled. -/
theorem claim_C3_witness :
    has_any_artifact (check_direct_artifacts "specs" exSD.direct) = false ∧
    (parse_artifacts "specs" "proj" exSD).spec.isSome = true :=
  ⟨by decide,
   (claim_C3_newest_existing_hit_wins "specs" "proj" exSD (by decide)).2.2
     ⟨("002-b", specOnlyDir "   "), by decide, by decide⟩⟩
